import Mathlib

/-!
Shallow embedding of the ZJU English dictation tool's quiz engine and
word-list loader (src/engine.py, src/model.py).

The Python program is single-threaded and call-and-return, so every method
of `GameEngine` becomes a pure function from an engine state to a
(result, new state) pair.  File I/O is made explicit:

* the wrong-word persistence file (`wrong_words.json`) is a `DiskFile`
  field of the state — `absent` (no file), `corrupt` (unreadable or
  malformed JSON), or `rows l` (a JSON array decoding to the records `l`);
* the word-list loader's output is passed to `start_game` as a
  `List WordEntry` parameter (the sequence `DataLoader.load_word_list`
  emits);
* `random.shuffle` is modelled by `shuffleModel`, a draw-by-draw selection
  shuffle driven by an explicit stream of random numbers, threaded into
  the operations that shuffle.

Python's `set` of hashable `WordEntry` values is modelled by a
duplicate-free `List WordEntry`: `setInsert` mirrors `set.add` (no-op when
the element is present) and `List.erase` mirrors `set.remove`.  All
claims about the set compare it up to order.
-/

/-- Model of `WordEntry` from src/model.py: an immutable record of three strings,
with structural (value) equality — `@dataclass(frozen=True)`. -/
structure WordEntry where
  english : String
  chinese : String
  examples : String
deriving DecidableEq, Repr

/-- The content of the wrong-word persistence file. -/
inductive DiskFile where
  | absent
  | corrupt
  | rows (data : List WordEntry)
deriving DecidableEq, Repr

/-- Mirror of Python `set.add`: insert an element into a duplicate-free list if absent. -/
def setInsert (x : WordEntry) (l : List WordEntry) : List WordEntry :=
  if x ∈ l then l else x :: l

/-- Python's `str.strip()`: drop leading and trailing whitespace. -/
def pyStrip (s : String) : String :=
  String.mk
    (((s.data.dropWhile Char.isWhitespace).reverse.dropWhile
        Char.isWhitespace).reverse)

/-- Python's `str.lower()`: lower-case every character. -/
def pyLower (s : String) : String :=
  String.mk (s.data.map Char.toLower)

/-- Python's `s.split(',')[0]`: the text before the first comma (the whole
string when there is no comma). -/
def commaHead (s : String) : String :=
  String.mk (s.data.takeWhile (fun c => !(c == ',')))

/-- Python's `' ' in s`: substring test for a single space character. -/
def containsSpace (s : String) : Bool :=
  s.data.contains ' '

/-- Model of Python's `random.shuffle`, driven by an explicit stream `rs`
of random draws: each step picks the position `r % length` of the
remaining list, emits that element and continues on the rest.  When the
stream runs dry the remaining suffix is kept in place. -/
def shuffleModel {α : Type} : List Nat → List α → List α
  | [], l => l
  | _ :: _, [] => []
  | r :: rs, x :: xs =>
    let j := r % (x :: xs).length
    (x :: xs).getD j x :: shuffleModel rs ((x :: xs).eraseIdx j)

/-- The state of `GameEngine` (src/engine.py), together with the
persistence file it reads and writes. -/
structure GameEngine where
  all_words : List WordEntry
  current_deck : List WordEntry
  current_index : Nat
  question_mode : String
  show_first_letter : Bool
  retry_on_wrong : Bool
  wrong_words : List WordEntry
  disk : DiskFile
deriving DecidableEq, Repr

namespace GameEngine

/-- Model of `_load_wrong_words_from_disk`: absent file → start fresh (empty set);
unreadable/malformed content → the exception is caught, the set stays
empty; otherwise the JSON rows are collected into a set (`dedup`). -/
def load_wrong_words_from_disk : DiskFile → List WordEntry
  | DiskFile.absent => []
  | DiskFile.corrupt => []
  | DiskFile.rows data => data.dedup

/-- Model of `_save_wrong_words_to_disk`: whole-file replace with the current
wrong-word set serialized as a JSON array of records. -/
def save_wrong_words_to_disk (e : GameEngine) : GameEngine :=
  { e with disk := DiskFile.rows e.wrong_words }

/-- Model of `GameEngine.__init__`: fresh state, wrong words loaded from disk. -/
def init (d : DiskFile) : GameEngine :=
  { all_words := []
    current_deck := []
    current_index := 0
    question_mode := "word"
    show_first_letter := false
    retry_on_wrong := false
    wrong_words := load_wrong_words_from_disk d
    disk := d }

/-- Model of `start_game` (src/engine.py lines 80–120).  `loaded` is the list the
loader returns for the requested book and units; `rs` drives the shuffle
used when `order_mode = "random"`. -/
def start_game (e : GameEngine) (loaded : List WordEntry)
    (filter_mode order_mode question_mode : String)
    (show_first_letter retry_on_wrong : Bool) (rs : List Nat) : GameEngine :=
  let all_words := loaded
  let temp_deck :=
    if filter_mode = "words_only" then
      all_words.filter (fun w => !(containsSpace w.english))
    else if filter_mode = "phrases_only" then
      all_words.filter (fun w => containsSpace w.english)
    else
      all_words
  let deck :=
    if order_mode = "random" then shuffleModel rs temp_deck else temp_deck
  { e with
    all_words := all_words
    current_deck := deck
    question_mode := question_mode
    show_first_letter := show_first_letter
    retry_on_wrong := retry_on_wrong
    current_index := 0 }

/-- Model of `start_review_mode` (src/engine.py lines 122–144). -/
def start_review_mode (e : GameEngine) (rs : List Nat) : Bool × GameEngine :=
  if e.wrong_words.isEmpty then
    (false, e)
  else
    let e1 := { e with current_deck := e.wrong_words, wrong_words := [] }
    let e2 := e1.save_wrong_words_to_disk
    (true, { e2 with
             current_deck := shuffleModel rs e2.current_deck
             current_index := 0 })

/-- Model of `get_next_question` (src/engine.py lines 146–155): pure read. -/
def get_next_question (e : GameEngine) : Option WordEntry :=
  if e.current_index ≥ e.current_deck.length then
    none
  else
    e.current_deck[e.current_index]?

/-- Model of `check_answer` (src/engine.py lines 157–179). -/
def check_answer (e : GameEngine) (user_input : String) : Bool × GameEngine :=
  if h : e.current_index < e.current_deck.length then
    let current_word := e.current_deck.get ⟨e.current_index, h⟩
    let correct_answer := pyStrip (commaHead current_word.english)
    let is_correct := pyLower (pyStrip user_input) == pyLower correct_answer
    let e1 :=
      if is_correct then e
      else
        { e with wrong_words := setInsert current_word e.wrong_words
          }.save_wrong_words_to_disk
    (is_correct, { e1 with current_index := e1.current_index + 1 })
  else
    (false, e)

/-- Model of `skip_current_word` (src/engine.py lines 181–198). -/
def skip_current_word (e : GameEngine) : Option WordEntry × GameEngine :=
  if h : e.current_index < e.current_deck.length then
    let current_word := e.current_deck.get ⟨e.current_index, h⟩
    let e1 :=
      { e with wrong_words := setInsert current_word e.wrong_words
        }.save_wrong_words_to_disk
    (some current_word, { e1 with current_index := e1.current_index + 1 })
  else
    (none, e)

/-- Model of `skip_without_penalty` (src/engine.py lines 201–218). -/
def skip_without_penalty (e : GameEngine) : Option WordEntry × GameEngine :=
  if h : e.current_index < e.current_deck.length then
    let current_word := e.current_deck.get ⟨e.current_index, h⟩
    let e1 :=
      if current_word ∈ e.wrong_words then
        { e with wrong_words := e.wrong_words.erase current_word
          }.save_wrong_words_to_disk
      else e
    (some current_word, { e1 with current_index := e1.current_index + 1 })
  else
    (none, e)

/-- Model of `clear_wrong_words_cache` (src/engine.py lines 220–224). -/
def clear_wrong_words_cache (e : GameEngine) : GameEngine :=
  { e with wrong_words := [] }.save_wrong_words_to_disk

/-- Model of `get_progress` (src/engine.py lines 226–230): pure read. -/
def get_progress (e : GameEngine) : Nat × Nat :=
  (e.current_index, e.current_deck.length)

/-- Model of `get_wrong_word_count` (src/engine.py lines 232–236): pure read. -/
def get_wrong_word_count (e : GameEngine) : Nat :=
  e.wrong_words.length

end GameEngine

/-- Model of `DataLoader.get_available_books` (src/model.py lines 38–49).  The data
directory is `none` when absent, otherwise a listing of (name, isDir)
entries; only subdirectories are returned. -/
def get_available_books (data_directory : Option (List (String × Bool))) :
    List String :=
  match data_directory with
  | none => []
  | some entries => (entries.filter (fun d => d.2)).map (fun d => d.1)

/-- The engine operations a presentation layer may issue between deck
builds, acting on the state (pure reads act as the identity). -/
inductive EngineOp where
  | checkAnswer (input : String)
  | skipCurrentWord
  | skipWithoutPenalty
  | getNextQuestion
  | getProgress
  | getWrongWordCount
deriving DecidableEq, Repr

/-- The state after issuing one operation. -/
def applyOp (e : GameEngine) : EngineOp → GameEngine
  | EngineOp.checkAnswer input => (e.check_answer input).2
  | EngineOp.skipCurrentWord => e.skip_current_word.2
  | EngineOp.skipWithoutPenalty => e.skip_without_penalty.2
  | EngineOp.getNextQuestion => e
  | EngineOp.getProgress => e
  | EngineOp.getWrongWordCount => e

/-- The state after a sequence of operations. -/
def applyOps (ops : List EngineOp) (e : GameEngine) : GameEngine :=
  ops.foldl applyOp e

/-- The cursor-bounds invariant of §8 of the spec: the cursor never
exceeds the deck length (the lower bound `0 ≤ current_index` is inherent
in the `Nat` type of the cursor). -/
def CursorInv (e : GameEngine) : Prop :=
  e.current_index ≤ e.current_deck.length

/-- The persistence invariant of §3 of the spec: decoding the on-disk
representation reproduces exactly the in-memory wrong-word set, which is
duplicate-free. -/
def SyncedState (e : GameEngine) : Prop :=
  GameEngine.load_wrong_words_from_disk e.disk = e.wrong_words ∧
    e.wrong_words.Nodup

/-- Concrete word entries used as evaluation inputs. -/
def wRun : WordEntry := ⟨"run, runs", "pao", ""⟩

def wGo : WordEntry := ⟨"go ahead", "qianjin", ""⟩

def wApple : WordEntry := ⟨"apple", "pingguo", ""⟩

/-- A concrete in-play engine state used as an evaluation input. -/
def engineW : GameEngine :=
  { GameEngine.init (DiskFile.rows [wApple]) with
    current_deck := [wRun, wGo, wApple] }

/-! ### Helper lemmas -/

/-- Picking the element at a valid index and erasing that index is a
permutation of the list. -/
lemma getD_cons_eraseIdx_perm {α : Type} :
    ∀ (l : List α) (j : Nat) (d : α), j < l.length →
      (l.getD j d :: l.eraseIdx j).Perm l := by
  intro l
  induction l with
  | nil => intro j d h; simp at h
  | cons x xs ih =>
    intro j d h
    cases j with
    | zero => simp [List.getD]
    | succ j =>
      have hj : j < xs.length := by simpa using h
      have step := ih j d hj
      exact (List.Perm.swap x (xs.getD j d) _).trans (List.Perm.cons x step)

/-- The function `shuffleModel` returns a permutation of its input, for every stream of
random draws. -/
lemma shuffleModel_perm {α : Type} :
    ∀ (rs : List Nat) (l : List α), (shuffleModel rs l).Perm l := by
  intro rs
  induction rs with
  | nil => intro l; simp [shuffleModel]
  | cons r rs ih =>
    intro l
    cases l with
    | nil => simp [shuffleModel]
    | cons x xs =>
      have hj : r % (x :: xs).length < (x :: xs).length :=
        Nat.mod_lt _ (by simp)
      have tail := ih ((x :: xs).eraseIdx (r % (x :: xs).length))
      have h1 : shuffleModel (r :: rs) (x :: xs) =
          (x :: xs).getD (r % (x :: xs).length) x ::
            shuffleModel rs ((x :: xs).eraseIdx (r % (x :: xs).length)) := rfl
      rw [h1]
      exact (List.Perm.cons _ tail).trans (getD_cons_eraseIdx_perm _ _ _ hj)

/-- Membership is invariant under the shuffle model. -/
lemma mem_shuffleModel {α : Type} (rs : List Nat) (l : List α) (a : α) :
    a ∈ shuffleModel rs l ↔ a ∈ l :=
  (shuffleModel_perm rs l).mem_iff

/-- The operation `setInsert` preserves freedom from duplicates. -/
lemma setInsert_nodup {x : WordEntry} {l : List WordEntry} (h : l.Nodup) :
    (setInsert x l).Nodup := by
  by_cases hx : x ∈ l
  · simpa [setInsert, hx] using h
  · rw [setInsert, if_neg hx]
    exact List.nodup_cons.mpr ⟨hx, h⟩

/-- An element of the set stays in the set under `setInsert`. -/
lemma mem_setInsert_of_mem {a x : WordEntry} {l : List WordEntry}
    (h : a ∈ l) : a ∈ setInsert x l := by
  by_cases hx : x ∈ l
  · simpa [setInsert, hx] using h
  · rw [setInsert, if_neg hx]
    exact List.mem_cons_of_mem x h

/-- Unfolding `check_answer` at a terminal state: failure, no state change. -/
lemma check_answer_terminal (e : GameEngine) (input : String)
    (hterm : e.current_deck.length ≤ e.current_index) :
    e.check_answer input = (false, e) := by
  unfold GameEngine.check_answer
  rw [dif_neg (Nat.not_lt.mpr hterm)]

/-- Unfolding `check_answer` on a correct answer: only the cursor moves. -/
lemma check_answer_state_true (e : GameEngine) (input : String)
    (h : e.current_index < e.current_deck.length)
    (hok : (pyLower (pyStrip input) ==
      pyLower (pyStrip (commaHead
        (e.current_deck.get ⟨e.current_index, h⟩).english))) = true) :
    e.check_answer input =
      (true, { e with current_index := e.current_index + 1 }) := by
  unfold GameEngine.check_answer
  rw [dif_pos h]
  simp only []
  rw [hok]
  rfl

/-- Unfolding `check_answer` on a wrong answer: the entry is recorded and persisted,
and the cursor moves. -/
lemma check_answer_state_false (e : GameEngine) (input : String)
    (h : e.current_index < e.current_deck.length)
    (hok : (pyLower (pyStrip input) ==
      pyLower (pyStrip (commaHead
        (e.current_deck.get ⟨e.current_index, h⟩).english))) = false) :
    e.check_answer input =
      (false,
       { e with
         wrong_words :=
           setInsert (e.current_deck.get ⟨e.current_index, h⟩) e.wrong_words
         disk :=
           DiskFile.rows
             (setInsert (e.current_deck.get ⟨e.current_index, h⟩)
               e.wrong_words)
         current_index := e.current_index + 1 }) := by
  unfold GameEngine.check_answer
  rw [dif_pos h]
  simp only []
  rw [hok]
  rfl

/-- Unfolding `skip_current_word` at a terminal state: no state change. -/
lemma skip_current_word_terminal (e : GameEngine)
    (hterm : e.current_deck.length ≤ e.current_index) :
    e.skip_current_word = (none, e) := by
  unfold GameEngine.skip_current_word
  rw [dif_neg (Nat.not_lt.mpr hterm)]

/-- Unfolding `skip_current_word` mid-deck: the current entry is recorded and
persisted, and the cursor moves. -/
lemma skip_current_word_eq (e : GameEngine)
    (h : e.current_index < e.current_deck.length) :
    e.skip_current_word =
      (some (e.current_deck.get ⟨e.current_index, h⟩),
       { e with
         wrong_words :=
           setInsert (e.current_deck.get ⟨e.current_index, h⟩) e.wrong_words
         disk :=
           DiskFile.rows
             (setInsert (e.current_deck.get ⟨e.current_index, h⟩)
               e.wrong_words)
         current_index := e.current_index + 1 }) := by
  unfold GameEngine.skip_current_word
  rw [dif_pos h]
  rfl

/-- Unfolding `skip_without_penalty` at a terminal state: no state change. -/
lemma skip_without_penalty_terminal (e : GameEngine)
    (hterm : e.current_deck.length ≤ e.current_index) :
    e.skip_without_penalty = (none, e) := by
  unfold GameEngine.skip_without_penalty
  rw [dif_neg (Nat.not_lt.mpr hterm)]

/-- Unfolding `skip_without_penalty` when the current entry is in the wrong-word
set: removed and persisted, cursor moves. -/
lemma skip_without_penalty_eq_mem (e : GameEngine)
    (h : e.current_index < e.current_deck.length)
    (hmem : e.current_deck.get ⟨e.current_index, h⟩ ∈ e.wrong_words) :
    e.skip_without_penalty =
      (some (e.current_deck.get ⟨e.current_index, h⟩),
       { e with
         wrong_words :=
           e.wrong_words.erase (e.current_deck.get ⟨e.current_index, h⟩)
         disk :=
           DiskFile.rows
             (e.wrong_words.erase (e.current_deck.get ⟨e.current_index, h⟩))
         current_index := e.current_index + 1 }) := by
  unfold GameEngine.skip_without_penalty
  rw [dif_pos h]
  simp only []
  rw [if_pos hmem]
  rfl

/-- Unfolding `skip_without_penalty` when the current entry is absent from the
wrong-word set: only the cursor moves. -/
lemma skip_without_penalty_eq_notmem (e : GameEngine)
    (h : e.current_index < e.current_deck.length)
    (hmem : e.current_deck.get ⟨e.current_index, h⟩ ∉ e.wrong_words) :
    e.skip_without_penalty =
      (some (e.current_deck.get ⟨e.current_index, h⟩),
       { e with current_index := e.current_index + 1 }) := by
  unfold GameEngine.skip_without_penalty
  rw [dif_pos h]
  simp only []
  rw [if_neg hmem]

/-- Unfolding `start_review_mode` on an empty wrong-word set: failure, no change. -/
lemma start_review_mode_empty (e : GameEngine) (rs : List Nat)
    (hw : e.wrong_words.isEmpty = true) :
    e.start_review_mode rs = (false, e) := by
  unfold GameEngine.start_review_mode
  rw [hw]
  rfl

/-- Unfolding `start_review_mode` on a non-empty wrong-word set: the set becomes
the deck (shuffled), is cleared and the cleared state persisted, and the
cursor is reset. -/
lemma start_review_mode_nonempty (e : GameEngine) (rs : List Nat)
    (hw : e.wrong_words.isEmpty = false) :
    e.start_review_mode rs =
      (true,
       { e with
         current_deck := shuffleModel rs e.wrong_words
         wrong_words := []
         disk := DiskFile.rows []
         current_index := 0 }) := by
  unfold GameEngine.start_review_mode
  rw [hw]
  rfl

/-- A single engine operation preserves the cursor-bounds invariant. -/
lemma cursorInv_applyOp (e : GameEngine) (op : EngineOp) (h : CursorInv e) :
    CursorInv (applyOp e op) := by
  cases op with
  | checkAnswer input =>
    show CursorInv (e.check_answer input).2
    by_cases hlt : e.current_index < e.current_deck.length
    · cases hok : pyLower (pyStrip input) ==
          pyLower (pyStrip (commaHead
            (e.current_deck.get ⟨e.current_index, hlt⟩).english)) with
      | true =>
        rw [check_answer_state_true e input hlt hok]
        exact hlt
      | false =>
        rw [check_answer_state_false e input hlt hok]
        exact hlt
    · rw [check_answer_terminal e input (Nat.not_lt.mp hlt)]
      exact h
  | skipCurrentWord =>
    show CursorInv e.skip_current_word.2
    by_cases hlt : e.current_index < e.current_deck.length
    · rw [skip_current_word_eq e hlt]
      exact hlt
    · rw [skip_current_word_terminal e (Nat.not_lt.mp hlt)]
      exact h
  | skipWithoutPenalty =>
    show CursorInv e.skip_without_penalty.2
    by_cases hlt : e.current_index < e.current_deck.length
    · by_cases hmem : e.current_deck.get ⟨e.current_index, hlt⟩ ∈ e.wrong_words
      · rw [skip_without_penalty_eq_mem e hlt hmem]
        exact hlt
      · rw [skip_without_penalty_eq_notmem e hlt hmem]
        exact hlt
    · rw [skip_without_penalty_terminal e (Nat.not_lt.mp hlt)]
      exact h
  | getNextQuestion => exact h
  | getProgress => exact h
  | getWrongWordCount => exact h

/-- A sequence of engine operations preserves the cursor bounds. -/
lemma cursorInv_applyOps (ops : List EngineOp) (e : GameEngine)
    (h : CursorInv e) : CursorInv (applyOps ops e) := by
  induction ops generalizing e with
  | nil => exact h
  | cons op ops ih => exact ih _ (cursorInv_applyOp e op h)

/-! ### Claim theorems -/

/-- C1: `startReviewMode` on an empty wrong-word set returns failure and
leaves the whole engine state (deck, cursor, wrong-word set, persisted
store) unchanged; on a non-empty set it returns success, the new deck is a
permutation of (multiset-equal to) the pre-call wrong-word set, the
wrong-word set is emptied with the cleared state persisted, and the cursor
is reset to 0. -/
theorem start_review_mode_spec (e : GameEngine) (rs : List Nat) :
    (e.wrong_words = [] → e.start_review_mode rs = (false, e)) ∧
    (e.wrong_words ≠ [] →
      (e.start_review_mode rs).1 = true ∧
      ((e.start_review_mode rs).2.current_deck).Perm e.wrong_words ∧
      (e.start_review_mode rs).2.wrong_words = [] ∧
      (e.start_review_mode rs).2.disk = DiskFile.rows [] ∧
      (e.start_review_mode rs).2.current_index = 0) := by
  constructor
  · intro h
    simp [GameEngine.start_review_mode, h]
  · intro h
    have hne : e.wrong_words.isEmpty = false := by
      cases hw : e.wrong_words with
      | nil => exact absurd hw h
      | cons a l => rfl
    simp [GameEngine.start_review_mode, hne, GameEngine.save_wrong_words_to_disk]
    exact shuffleModel_perm rs e.wrong_words

/-- Witness for C1 at a concrete engine whose wrong-word set is `[wApple]`. -/
theorem start_review_mode_spec_witness :
    ((GameEngine.init (DiskFile.rows [wApple])).start_review_mode [1]).1 = true ∧
    (((GameEngine.init (DiskFile.rows [wApple])).start_review_mode
        [1]).2.current_deck).Perm
      (GameEngine.init (DiskFile.rows [wApple])).wrong_words ∧
    ((GameEngine.init (DiskFile.rows [wApple])).start_review_mode
        [1]).2.wrong_words = [] ∧
    ((GameEngine.init (DiskFile.rows [wApple])).start_review_mode [1]).2.disk =
      DiskFile.rows [] ∧
    ((GameEngine.init (DiskFile.rows [wApple])).start_review_mode
        [1]).2.current_index = 0 :=
  (start_review_mode_spec (GameEngine.init (DiskFile.rows [wApple])) [1]).2
    (by decide)

/-- C9: missing or corrupt resources are non-fatal and yield empty
results — construction with an absent persistence file yields an empty
wrong-word set, construction with unreadable/malformed content yields an
empty wrong-word set, and listing books under an absent root directory
yields an empty sequence. -/
theorem missing_resources_spec :
    (GameEngine.init DiskFile.absent).wrong_words = [] ∧
    (GameEngine.init DiskFile.corrupt).wrong_words = [] ∧
    get_available_books none = [] := by
  exact ⟨rfl, rfl, rfl⟩

/-- C8: `getNextQuestion` is side-effect-free (the state after the call is
the state before it), returns `none` exactly when the cursor has reached
the deck length, and otherwise returns the entry at the cursor — so two
consecutive calls with no intervening mutation agree. -/
theorem get_next_question_spec (e : GameEngine) :
    applyOp e EngineOp.getNextQuestion = e ∧
    (e.get_next_question = none ↔ e.current_deck.length ≤ e.current_index) ∧
    (∀ h : e.current_index < e.current_deck.length,
      e.get_next_question = some (e.current_deck.get ⟨e.current_index, h⟩)) := by
  refine ⟨rfl, ?_, ?_⟩
  · by_cases h : e.current_deck.length ≤ e.current_index
    · simp [GameEngine.get_next_question, h]
    · have hlt : e.current_index < e.current_deck.length := Nat.not_le.mp h
      simp [GameEngine.get_next_question, h, List.getElem?_eq_getElem hlt]
  · intro h
    simp [GameEngine.get_next_question, Nat.not_le.mpr h,
      List.getElem?_eq_getElem h]

/-- Witness for C8 at the concrete state `engineW` (cursor 0, deck of 3). -/
theorem get_next_question_spec_witness :
    engineW.get_next_question = some wRun :=
  (get_next_question_spec engineW).2.2 (by decide)

/-- C2: `checkAnswer` at the terminal state returns failure with no state
change; otherwise it succeeds iff the trimmed, lower-cased input equals
the current entry's english field truncated at the first comma, trimmed
and lower-cased; on failure the current entry is added to the wrong-word
set and the set persisted; in either case the cursor advances by one. -/
theorem check_answer_spec (e : GameEngine) (input : String) :
    (e.current_deck.length ≤ e.current_index →
      e.check_answer input = (false, e)) ∧
    (∀ h : e.current_index < e.current_deck.length,
      ((e.check_answer input).1 = true ↔
        pyLower (pyStrip input) =
          pyLower (pyStrip (commaHead
            (e.current_deck.get ⟨e.current_index, h⟩).english))) ∧
      ((e.check_answer input).1 = false →
        (e.check_answer input).2.wrong_words =
          setInsert (e.current_deck.get ⟨e.current_index, h⟩) e.wrong_words ∧
        (e.check_answer input).2.disk =
          DiskFile.rows
            (setInsert (e.current_deck.get ⟨e.current_index, h⟩)
              e.wrong_words)) ∧
      (e.check_answer input).2.current_index = e.current_index + 1) := by
  constructor
  · intro hterm
    simp [GameEngine.check_answer, Nat.not_lt.mpr hterm]
  · intro h
    cases hok : pyLower (pyStrip input) ==
        pyLower (pyStrip (commaHead
          (e.current_deck.get ⟨e.current_index, h⟩).english)) with
    | false =>
      have hd : e.check_answer input =
          (false,
           { e with
             wrong_words :=
               setInsert (e.current_deck.get ⟨e.current_index, h⟩)
                 e.wrong_words
             disk :=
               DiskFile.rows
                 (setInsert (e.current_deck.get ⟨e.current_index, h⟩)
                   e.wrong_words)
             current_index := e.current_index + 1 }) := by
        unfold GameEngine.check_answer
        rw [dif_pos h]
        simp only []
        rw [hok]
        rfl
      rw [hd]
      exact ⟨iff_of_false (by simp) (ne_of_beq_false hok),
        fun _ => ⟨rfl, rfl⟩, rfl⟩
    | true =>
      have hd : e.check_answer input =
          (true, { e with current_index := e.current_index + 1 }) := by
        unfold GameEngine.check_answer
        rw [dif_pos h]
        simp only []
        rw [hok]
        rfl
      rw [hd]
      exact ⟨iff_of_true rfl (eq_of_beq hok), fun hc => by simp at hc, rfl⟩

/-- Witness for C2: against `wRun` (english `"run, runs"`) the input
`"Run"` is accepted, `"running"` is rejected and recorded, and the cursor
advances. -/
theorem check_answer_spec_witness :
    (engineW.check_answer "Run").1 = true ∧
    (engineW.check_answer "running").1 = false ∧
    (engineW.check_answer "running").2.wrong_words =
      setInsert wRun engineW.wrong_words ∧
    (engineW.check_answer "running").2.current_index = 1 := by
  have h1 := (check_answer_spec engineW "Run").2 (by decide)
  have h2 := (check_answer_spec engineW "running").2 (by decide)
  have hb : (engineW.check_answer "running").1 = false := by
    cases hc : (engineW.check_answer "running").1 with
    | false => rfl
    | true => exact absurd (h2.1.mp hc) (by decide)
  exact ⟨h1.1.mpr (by decide), hb, (h2.2.1 hb).1, h2.2.2⟩

/-- C5: `skipWithoutPenalty` at a terminal state returns `none` with no
state change; otherwise it returns the current entry and advances the
cursor by one, removing the entry from the wrong-word set (persisting the
change) when present and leaving the set untouched when absent.  Moreover
no other non-review operation (`checkAnswer`, `skipCurrentWord`,
`getNextQuestion`) ever removes an element from the wrong-word set. -/
theorem skip_without_penalty_spec (e : GameEngine) (input : String)
    (x : WordEntry) :
    (e.current_deck.length ≤ e.current_index →
      e.skip_without_penalty = (none, e)) ∧
    (∀ h : e.current_index < e.current_deck.length,
      e.skip_without_penalty.1 =
        some (e.current_deck.get ⟨e.current_index, h⟩) ∧
      (e.current_deck.get ⟨e.current_index, h⟩ ∈ e.wrong_words →
        e.skip_without_penalty.2.wrong_words =
          e.wrong_words.erase (e.current_deck.get ⟨e.current_index, h⟩) ∧
        e.skip_without_penalty.2.disk =
          DiskFile.rows
            (e.wrong_words.erase
              (e.current_deck.get ⟨e.current_index, h⟩))) ∧
      (e.current_deck.get ⟨e.current_index, h⟩ ∉ e.wrong_words →
        e.skip_without_penalty.2.wrong_words = e.wrong_words ∧
        e.skip_without_penalty.2.disk = e.disk) ∧
      e.skip_without_penalty.2.current_index = e.current_index + 1) ∧
    (x ∈ e.wrong_words →
      x ∈ (e.check_answer input).2.wrong_words ∧
      x ∈ e.skip_current_word.2.wrong_words ∧
      applyOp e EngineOp.getNextQuestion = e) := by
  refine ⟨skip_without_penalty_terminal e, ?_, ?_⟩
  · intro h
    by_cases hmem : e.current_deck.get ⟨e.current_index, h⟩ ∈ e.wrong_words
    · rw [skip_without_penalty_eq_mem e h hmem]
      exact ⟨rfl, fun _ => ⟨rfl, rfl⟩, fun hn => absurd hmem hn, rfl⟩
    · rw [skip_without_penalty_eq_notmem e h hmem]
      exact ⟨rfl, fun hc => absurd hc hmem, fun _ => ⟨rfl, rfl⟩, rfl⟩
  · intro hx
    refine ⟨?_, ?_, rfl⟩
    · by_cases h : e.current_index < e.current_deck.length
      · cases hok : pyLower (pyStrip input) ==
            pyLower (pyStrip (commaHead
              (e.current_deck.get ⟨e.current_index, h⟩).english)) with
        | true =>
          rw [check_answer_state_true e input h hok]
          exact hx
        | false =>
          rw [check_answer_state_false e input h hok]
          exact mem_setInsert_of_mem hx
      · rw [check_answer_terminal e input (Nat.not_lt.mp h)]
        exact hx
    · by_cases h : e.current_index < e.current_deck.length
      · rw [skip_current_word_eq e h]
        exact mem_setInsert_of_mem hx
      · rw [skip_current_word_terminal e (Nat.not_lt.mp h)]
        exact hx

/-- Witness for C5: `engineW` has wrong-word set `[wApple]`; at cursor 0
(entry `wRun`, absent) the set is unchanged, at cursor 2 (entry `wApple`,
present) it is removed, and `wApple` survives `checkAnswer`. -/
theorem skip_without_penalty_spec_witness :
    engineW.skip_without_penalty.1 = some wRun ∧
    engineW.skip_without_penalty.2.wrong_words = engineW.wrong_words ∧
    engineW.skip_without_penalty.2.current_index = 1 ∧
    ({ engineW with current_index := 2 }).skip_without_penalty.2.wrong_words
      = engineW.wrong_words.erase wApple ∧
    wApple ∈ (engineW.check_answer "zzz").2.wrong_words := by
  have hmain := (skip_without_penalty_spec engineW "zzz" wApple).2.1 (by decide)
  have hmem :=
    (skip_without_penalty_spec { engineW with current_index := 2 } "zzz"
      wApple).2.1 (by decide)
  have hmono := (skip_without_penalty_spec engineW "zzz" wApple).2.2 (by decide)
  exact ⟨hmain.1, (hmain.2.2.1 (by decide)).1, hmain.2.2.2,
    (hmem.2.1 (by decide)).1, hmono.1⟩

/-- C3: persistence round-trip — saving the wrong-word set and decoding
the written content yields an equal set (exactly equal when duplicate-free,
equal as a finite set in general); and the sync invariant (the on-disk
representation decodes to the in-memory set) holds at construction and is
preserved by every engine operation. -/
theorem persistence_roundtrip_spec (e : GameEngine) (d : DiskFile)
    (loaded : List WordEntry) (fm om qm input : String) (a b : Bool)
    (rs : List Nat) :
    (GameEngine.load_wrong_words_from_disk
        e.save_wrong_words_to_disk.disk).toFinset
      = e.wrong_words.toFinset ∧
    (e.wrong_words.Nodup →
      GameEngine.load_wrong_words_from_disk e.save_wrong_words_to_disk.disk
        = e.wrong_words) ∧
    SyncedState (GameEngine.init d) ∧
    (SyncedState e →
      SyncedState (e.start_game loaded fm om qm a b rs) ∧
      SyncedState (e.start_review_mode rs).2 ∧
      SyncedState (e.check_answer input).2 ∧
      SyncedState e.skip_current_word.2 ∧
      SyncedState e.skip_without_penalty.2 ∧
      SyncedState e.clear_wrong_words_cache) := by
  refine ⟨?_, ?_, ?_, ?_⟩
  · show e.wrong_words.dedup.toFinset = e.wrong_words.toFinset
    ext w
    simp [List.mem_dedup]
  · intro hn
    exact List.dedup_eq_self.mpr hn
  · refine ⟨rfl, ?_⟩
    cases d with
    | absent => exact List.nodup_nil
    | corrupt => exact List.nodup_nil
    | rows data => exact data.nodup_dedup
  · rintro ⟨hsync, hnodup⟩
    refine ⟨⟨hsync, hnodup⟩, ?_, ?_, ?_, ?_, ⟨rfl, List.nodup_nil⟩⟩
    · cases hw : e.wrong_words.isEmpty with
      | true =>
        have hum : e.start_review_mode rs = (false, e) := by
          unfold GameEngine.start_review_mode
          rw [hw]
          rfl
        rw [hum]
        exact ⟨hsync, hnodup⟩
      | false =>
        have hum : (e.start_review_mode rs).2 =
            { e with
              current_deck := shuffleModel rs e.wrong_words
              wrong_words := []
              disk := DiskFile.rows []
              current_index := 0 } := by
          unfold GameEngine.start_review_mode
          rw [hw]
          rfl
        rw [hum]
        exact ⟨rfl, List.nodup_nil⟩
    · by_cases h : e.current_index < e.current_deck.length
      · cases hok : pyLower (pyStrip input) ==
            pyLower (pyStrip (commaHead
              (e.current_deck.get ⟨e.current_index, h⟩).english)) with
        | true =>
          rw [check_answer_state_true e input h hok]
          exact ⟨hsync, hnodup⟩
        | false =>
          rw [check_answer_state_false e input h hok]
          exact ⟨List.dedup_eq_self.mpr (setInsert_nodup hnodup),
            setInsert_nodup hnodup⟩
      · rw [check_answer_terminal e input (Nat.not_lt.mp h)]
        exact ⟨hsync, hnodup⟩
    · by_cases h : e.current_index < e.current_deck.length
      · rw [skip_current_word_eq e h]
        exact ⟨List.dedup_eq_self.mpr (setInsert_nodup hnodup),
          setInsert_nodup hnodup⟩
      · rw [skip_current_word_terminal e (Nat.not_lt.mp h)]
        exact ⟨hsync, hnodup⟩
    · by_cases h : e.current_index < e.current_deck.length
      · by_cases hmem : e.current_deck.get ⟨e.current_index, h⟩ ∈ e.wrong_words
        · rw [skip_without_penalty_eq_mem e h hmem]
          have hne : (e.wrong_words.erase
              (e.current_deck.get ⟨e.current_index, h⟩)).Nodup :=
            List.Nodup.sublist (List.erase_sublist _ _) hnodup
          exact ⟨List.dedup_eq_self.mpr hne, hne⟩
        · rw [skip_without_penalty_eq_notmem e h hmem]
          exact ⟨hsync, hnodup⟩
      · rw [skip_without_penalty_terminal e (Nat.not_lt.mp h)]
        exact ⟨hsync, hnodup⟩

/-- Witness for C3 at a concrete engine after one wrong answer. -/
theorem persistence_roundtrip_spec_witness :
    GameEngine.load_wrong_words_from_disk
        engineW.save_wrong_words_to_disk.disk
      = engineW.wrong_words ∧
    SyncedState ((engineW.check_answer "zzz").2) := by
  have hmain := persistence_roundtrip_spec engineW DiskFile.absent [] "all"
    "sequential" "word" "zzz" false false []
  exact ⟨hmain.2.1 (by decide), (hmain.2.2.2 ⟨by decide, by decide⟩).2.2.1⟩

/-- C4: for every deck established by `startGame` or a successful
`startReviewMode`, and every sequence of engine operations, the state
satisfies `current_index ≤ len(deck)` (the lower bound `0 ≤ current_index`
holds by the `Nat` type of the cursor), `current_index = len(deck)` being
the exhaustion state. -/
theorem cursor_bounds_spec (e : GameEngine) (loaded : List WordEntry)
    (fm om qm : String) (a b : Bool) (rs : List Nat) (ops : List EngineOp) :
    CursorInv (applyOps ops (e.start_game loaded fm om qm a b rs)) ∧
    ((e.start_review_mode rs).1 = true →
      CursorInv (applyOps ops (e.start_review_mode rs).2)) := by
  constructor
  · exact cursorInv_applyOps ops _ (Nat.zero_le _)
  · intro hs
    cases hw : e.wrong_words.isEmpty with
    | true =>
      rw [start_review_mode_empty e rs hw] at hs
      cases hs
    | false =>
      rw [start_review_mode_nonempty e rs hw]
      exact cursorInv_applyOps ops _ (Nat.zero_le _)

/-- Witness for C4 on concrete decks and operation sequences. -/
theorem cursor_bounds_spec_witness :
    CursorInv (applyOps [EngineOp.checkAnswer "a", EngineOp.skipCurrentWord]
      (engineW.start_game [wRun, wGo] "all" "random" "word" false false
        [1])) ∧
    CursorInv (applyOps [EngineOp.skipWithoutPenalty]
      ((GameEngine.init (DiskFile.rows [wApple])).start_review_mode
        [0]).2) :=
  ⟨(cursor_bounds_spec engineW [wRun, wGo] "all" "random" "word" false false
      [1] [EngineOp.checkAnswer "a", EngineOp.skipCurrentWord]).1,
   (cursor_bounds_spec (GameEngine.init (DiskFile.rows [wApple])) [] "all"
      "sequential" "word" false false [0]
      [EngineOp.skipWithoutPenalty]).2 (by decide)⟩

/-- The deck built by `start_game`: content filter first, then order mode. -/
lemma start_game_deck (e : GameEngine) (loaded : List WordEntry)
    (fm om qm : String) (a b : Bool) (rs : List Nat) :
    (e.start_game loaded fm om qm a b rs).current_deck =
      (if om = "random" then
        shuffleModel rs
          (if fm = "words_only" then
            loaded.filter (fun w => !(containsSpace w.english))
           else if fm = "phrases_only" then
            loaded.filter (fun w => containsSpace w.english)
           else loaded)
       else
        (if fm = "words_only" then
          loaded.filter (fun w => !(containsSpace w.english))
         else if fm = "phrases_only" then
          loaded.filter (fun w => containsSpace w.english)
         else loaded)) := rfl

/-- The full state built by `start_game`, with the let chain resolved. -/
lemma start_game_eq (e : GameEngine) (loaded : List WordEntry)
    (fm om qm : String) (a b : Bool) (rs : List Nat) :
    e.start_game loaded fm om qm a b rs =
      { e with
        all_words := loaded
        current_deck :=
          (if om = "random" then
            shuffleModel rs
              (if fm = "words_only" then
                loaded.filter (fun w => !(containsSpace w.english))
               else if fm = "phrases_only" then
                loaded.filter (fun w => containsSpace w.english)
               else loaded)
           else
            (if fm = "words_only" then
              loaded.filter (fun w => !(containsSpace w.english))
             else if fm = "phrases_only" then
              loaded.filter (fun w => containsSpace w.english)
             else loaded))
        question_mode := qm
        show_first_letter := a
        retry_on_wrong := b
        current_index := 0 } := rfl

/-- A list splits, by count, into the entries without a space and the
entries with one. -/
lemma length_filter_split (l : List WordEntry) :
    l.length =
      (l.filter (fun w => !(containsSpace w.english))).length +
      (l.filter (fun w => containsSpace w.english)).length := by
  induction l with
  | nil => rfl
  | cons x xs ih =>
    cases hx : containsSpace x.english with
    | true =>
      simp [List.filter_cons, hx]
      omega
    | false =>
      simp [List.filter_cons, hx]
      omega

/-- C6: with `filterMode = wordsOnly` every deck entry's english field
contains no space; with `phrasesOnly` every entry's english field contains
a space; with `all` the deck is the loaded sequence itself, whose count is
the sum of the two filtered decks' counts. -/
theorem filter_modes_spec (e : GameEngine) (loaded : List WordEntry)
    (om qm : String) (a b : Bool) (rs : List Nat) :
    (∀ w ∈ (e.start_game loaded "words_only" om qm a b rs).current_deck,
      containsSpace w.english = false) ∧
    (∀ w ∈ (e.start_game loaded "phrases_only" om qm a b rs).current_deck,
      containsSpace w.english = true) ∧
    (e.start_game loaded "all" "sequential" qm a b rs).current_deck
      = loaded ∧
    ((e.start_game loaded "all" om qm a b rs).current_deck).Perm loaded ∧
    loaded.length =
      (e.start_game loaded "words_only" "sequential" qm a b
        rs).current_deck.length +
      (e.start_game loaded "phrases_only" "sequential" qm a b
        rs).current_deck.length := by
  refine ⟨?_, ?_, ?_, ?_, ?_⟩
  · intro w hw
    rw [start_game_deck] at hw
    have hw2 : w ∈ loaded.filter (fun w => !(containsSpace w.english)) := by
      by_cases hom : om = "random"
      · rw [if_pos hom, if_pos rfl] at hw
        exact (mem_shuffleModel rs _ w).mp hw
      · rw [if_neg hom, if_pos rfl] at hw
        exact hw
    simpa using (List.mem_filter.mp hw2).2
  · intro w hw
    rw [start_game_deck] at hw
    have hw2 : w ∈ loaded.filter (fun w => containsSpace w.english) := by
      by_cases hom : om = "random"
      · rw [if_pos hom, if_neg (by decide : ¬("phrases_only" = "words_only")),
          if_pos rfl] at hw
        exact (mem_shuffleModel rs _ w).mp hw
      · rw [if_neg hom, if_neg (by decide : ¬("phrases_only" = "words_only")),
          if_pos rfl] at hw
        exact hw
    exact (List.mem_filter.mp hw2).2
  · rw [start_game_deck, if_neg (by decide : ¬("sequential" = "random")),
      if_neg (by decide : ¬("all" = "words_only")),
      if_neg (by decide : ¬("all" = "phrases_only"))]
  · rw [start_game_deck, if_neg (by decide : ¬("all" = "words_only")),
      if_neg (by decide : ¬("all" = "phrases_only"))]
    by_cases hom : om = "random"
    · rw [if_pos hom]
      exact shuffleModel_perm rs loaded
    · rw [if_neg hom]
  · rw [start_game_deck, start_game_deck,
      if_neg (by decide : ¬("sequential" = "random")),
      if_neg (by decide : ¬("sequential" = "random")), if_pos rfl,
      if_neg (by decide : ¬("phrases_only" = "words_only")), if_pos rfl]
    exact length_filter_split loaded

/-- Witness for C6: from the load `[wRun, wGo, wApple]`, the words-only
deck keeps `wApple` (no space) and the phrases-only deck keeps `wGo`
(contains a space). -/
theorem filter_modes_spec_witness :
    containsSpace wApple.english = false ∧
    containsSpace wGo.english = true := by
  have h := filter_modes_spec engineW [wRun, wGo, wApple] "sequential"
    "word" false false []
  exact ⟨h.1 wApple (by decide), h.2.1 wGo (by decide)⟩

/-- C7: with `orderMode = sequential` the deck is exactly the filtered
sequence in load order; with `random` it is a permutation of that
sequence, for every input word list and filter mode. -/
theorem order_modes_spec (e : GameEngine) (loaded : List WordEntry)
    (fm qm : String) (a b : Bool) (rs : List Nat) :
    (e.start_game loaded fm "sequential" qm a b rs).current_deck =
      (if fm = "words_only" then
        loaded.filter (fun w => !(containsSpace w.english))
       else if fm = "phrases_only" then
        loaded.filter (fun w => containsSpace w.english)
       else loaded) ∧
    ((e.start_game loaded fm "random" qm a b rs).current_deck).Perm
      ((e.start_game loaded fm "sequential" qm a b rs).current_deck) := by
  constructor
  · rw [start_game_deck, if_neg (by decide : ¬("sequential" = "random"))]
  · rw [start_game_deck, start_game_deck, if_pos rfl,
      if_neg (by decide : ¬("sequential" = "random"))]
    exact shuffleModel_perm rs _

/-- C10: `start_game` accepts unrecognized mode strings without error —
any filter mode other than `"words_only"`/`"phrases_only"` behaves as
`all`, any order mode other than `"random"` behaves as sequential, and
the deck is still built with the cursor reset to 0. -/
theorem unknown_modes_spec (e : GameEngine) (loaded : List WordEntry)
    (fm om qm : String) (a b : Bool) (rs : List Nat) :
    (fm ≠ "words_only" → fm ≠ "phrases_only" →
      e.start_game loaded fm om qm a b rs =
        e.start_game loaded "all" om qm a b rs) ∧
    (om ≠ "random" →
      e.start_game loaded fm om qm a b rs =
        e.start_game loaded fm "sequential" qm a b rs ∧
      (e.start_game loaded fm om qm a b rs).current_index = 0) := by
  constructor
  · intro h1 h2
    rw [start_game_eq, start_game_eq, if_neg h1, if_neg h2,
      if_neg (by decide : ¬("all" = "words_only")),
      if_neg (by decide : ¬("all" = "phrases_only"))]
  · intro h
    refine ⟨?_, rfl⟩
    rw [start_game_eq, start_game_eq, if_neg h,
      if_neg (by decide : ¬("sequential" = "random"))]

/-- Witness for C10: the camelCase spelling `"wordsOnly"` acts as `all`,
and the misspelling `"Random"` acts as sequential, with the cursor
reset. -/
theorem unknown_modes_spec_witness :
    engineW.start_game [wRun, wGo] "wordsOnly" "Random" "word" false false []
      = engineW.start_game [wRun, wGo] "all" "Random" "word" false false [] ∧
    engineW.start_game [wRun, wGo] "wordsOnly" "Random" "word" false false []
      = engineW.start_game [wRun, wGo] "wordsOnly" "sequential" "word" false
          false [] ∧
    (engineW.start_game [wRun, wGo] "wordsOnly" "Random" "word" false false
      []).current_index = 0 := by
  have h := unknown_modes_spec engineW [wRun, wGo] "wordsOnly" "Random"
    "word" false false []
  exact ⟨h.1 (by decide) (by decide), (h.2 (by decide)).1, (h.2 (by decide)).2⟩
